import Mathlib

/-!
Verification of the CSV-to-mapping conversion pipeline (`scripts/csv_to_mapping.py`).

The pipeline reads a CSV of annotation labels, validates it, derives the ordered
category list, renders two mapping text files, and appends a versioned row to
the `label_sets` table, with a backup/restore discipline around the writes.

This file gives a shallow embedding of that pipeline and proves the stated
properties about it.  File-system and database effects are modelled by an
explicit `World` state threaded through the orchestrator; failures of external
writes are modelled by explicit fault-injection parameters.
-/

namespace CsvToMapping

/-! ## Data model -/

/-- `ElementRecord` dataclass: one element parsed from the CSV. -/
structure ElementRecord where
  id : Int
  set_label : String
  element_label : String
  color : Option String := none
deriving DecidableEq

/-- `SetRecord` dataclass: one derived category/set. -/
structure SetRecord where
  id : Nat
  name : String
  color : String
deriving DecidableEq

/-- The static `CATEGORY_COLORS` table, as an insertion-ordered association list. -/
def CATEGORY_COLORS : List (String × String) :=
  [("Three_Turn", "#3b82f6"),
   ("Bracket_Turn", "#8b5cf6"),
   ("Rocker_Turn", "#06b6d4"),
   ("Counter_Turn", "#10b981"),
   ("Loop_Turn", "#f59e0b"),
   ("Twizzle", "#ef4444"),
   ("Toe_Step", "#ec4899"),
   ("Chasse", "#84cc16"),
   ("Mohawk", "#f97316"),
   ("Choctaw", "#8b5cf6"),
   ("Change_of_Edge", "#06b6d4"),
   ("Cross_Roll", "#059669"),
   ("Swing_Roll", "#0d9488"),
   ("Cross_Over", "#7c3aed"),
   ("Spiral", "#db2777"),
   ("Arabesque", "#be185d"),
   ("Spread_Eagles", "#c2410c"),
   ("Ina_Bauers", "#7c2d12"),
   ("Hydroblading", "#1e40af"),
   ("Knee_Slide", "#374151"),
   ("NONE", "#6b7280"),
   ("Other", "#9ca3af")]

/-- First-match association-list lookup (the semantics of a Python `dict` built
by inserting distinct keys, then queried with `get`). -/
def alookup {β : Type} (key : String) : List (String × β) → Option β
  | [] => none
  | (k, v) :: rest => if k = key then some v else alookup key rest

/-- `get_default_color`: `CATEGORY_COLORS.get(set_name, CATEGORY_COLORS['Other'])`. -/
def get_default_color (set_name : String) : String :=
  match alookup set_name CATEGORY_COLORS with
  | some c => c
  | none => (alookup "Other" CATEGORY_COLORS).getD "#9ca3af"

/-- Python truthiness selection `color if color else default` on an optional
string: `None` and the empty string are falsy. -/
def pyColorOr (color : Option String) (default : String) : String :=
  match color with
  | some c => if c = "" then default else c
  | none => default

/-! ## CSV reader (`read_csv`) -/

/-- One raw data row of the CSV file, already keyed by header name.  `color =
none` models a CSV without the optional `color` column (`row.get('color', '')`). -/
structure RawRow where
  id : String
  set_label : String
  element_label : String
  color : Option String := none
deriving DecidableEq

/-- Python `str.strip()` whitespace predicate (ASCII subset). -/
def pyIsSpace (c : Char) : Bool :=
  c = ' ' || c = '\t' || c = '\n' || c = '\r' || c = '\x0b' || c = '\x0c'

/-- Characters of a string stripped of leading and trailing whitespace. -/
def stripChars (cs : List Char) : List Char :=
  ((cs.dropWhile pyIsSpace).reverse.dropWhile pyIsSpace).reverse

/-- Model of Python `str.strip()`. -/
def pyStrip (s : String) : String := String.mk (stripChars s.data)

/-- Digit run to a natural number; `none` unless the run is non-empty and all digits. -/
def natOfDigits (cs : List Char) : Option Nat :=
  if cs ≠ [] ∧ cs.all Char.isDigit then
    some (cs.foldl (fun acc c => 10 * acc + (c.toNat - 48)) 0)
  else none

/-- Model of Python `int(s)` on a string: strip whitespace, optional sign,
then a non-empty digit run. -/
def pyInt (s : String) : Option Int :=
  match (pyStrip s).data with
  | '+' :: rest => (natOfDigits rest).map Int.ofNat
  | '-' :: rest => (natOfDigits rest).map fun n => -(n : Int)
  | cs => (natOfDigits cs).map Int.ofNat

/-- `row.get('color', '').strip() or None`: an absent column or a
whitespace-only value becomes `none`, otherwise the stripped value is kept. -/
def pyOptStrip : Option String → Option String
  | none => none
  | some c => if pyStrip c = "" then none else some (pyStrip c)

/-- The error taxonomy of the reader.  `invalidIdFormat`, `emptySetLabel` and
`emptyElementLabel` are the `FormatError` family (`Line {n}: ...` messages);
`notFoundError` and `emptyInputError` are the missing-file and no-data-rows
failures. -/
inductive CsvError where
  | notFoundError : CsvError
  | invalidIdFormat (line : Nat) (raw : String) : CsvError
  | emptySetLabel (line : Nat) : CsvError
  | emptyElementLabel (line : Nat) : CsvError
  | emptyInputError : CsvError
deriving DecidableEq

/-- The per-row loop of `read_csv`, carrying the 1-based file line number
(data rows start at line 2, after the header). -/
def readRows : Nat → List RawRow → Except CsvError (List ElementRecord)
  | _, [] => .ok []
  | line, row :: rest =>
    match pyInt row.id with
    | none => .error (.invalidIdFormat line row.id)
    | some element_id =>
      let set_label := pyStrip row.set_label
      let element_label := pyStrip row.element_label
      if set_label = "" then .error (.emptySetLabel line)
      else if element_label = "" then .error (.emptyElementLabel line)
      else
        match readRows (line + 1) rest with
        | .error e => .error e
        | .ok records =>
          .ok ({ id := element_id, set_label := set_label,
                 element_label := element_label,
                 color := pyOptStrip row.color } :: records)

/-- `read_csv`: `none` models a missing file (`FileNotFoundError`). -/
def read_csv (csv_file : Option (List RawRow)) : Except CsvError (List ElementRecord) :=
  match csv_file with
  | none => .error .notFoundError
  | some rows =>
    match readRows 2 rows with
    | .error e => .error e
    | .ok records => if records.isEmpty then .error .emptyInputError else .ok records

/-! ## Validator (`validate_csv`) -/

/-- ASCII hex digit, per the character class `[0-9A-Fa-f]`. -/
def isHexAscii (c : Char) : Bool :=
  c.isDigit || ('a' ≤ c && c ≤ 'f') || ('A' ≤ c && c ≤ 'F')

/-- Model of `re.match(r'^#[0-9A-Fa-f]{6}$', s)`: a Python `$` also matches
just before a single trailing newline, so `"#aabbcc\n"` is accepted too. -/
def color_pattern_match (s : String) : Bool :=
  match s.data with
  | c :: rest =>
    (c = '#') &&
      ((rest.length = 6 && rest.all isHexAscii)
        || (rest.length = 7 && (rest.take 6).all isHexAscii && rest.getLast? = some '\n'))
  | [] => false

/-- Id-sequence check: `for i, record in enumerate(records)`, reporting every
position whose id differs from it. -/
def seq_errors : Nat → List ElementRecord → List String
  | _, [] => []
  | i, record :: rest =>
    (if record.id ≠ (i : Int) then
      [s!"Element at row {i + 2}: Expected ID {i}, got {record.id} (IDs must be sequential starting from 0)"]
     else []) ++ seq_errors (i + 1) rest

/-- Keys of a list in order of first appearance (Python `dict` key order when
counting occurrences). -/
def firstAppear {α : Type} [DecidableEq α] : List α → List α
  | [] => []
  | x :: xs => x :: (firstAppear xs).filter (fun y => y ≠ x)

/-- Duplicate reporting shared by the id and label checks: one message per key
occurring more than once, in first-appearance order, with its count. -/
def dup_errors {α : Type} [DecidableEq α] (keys : List α) (fmt : α → Nat → String) :
    List String :=
  (firstAppear keys).filterMap fun k =>
    let count := keys.count k
    if 1 < count then some (fmt k count) else none

/-- Duplicate-id messages. -/
def dup_id_errors (records : List ElementRecord) : List String :=
  dup_errors (records.map (·.id)) fun element_id count =>
    s!"Duplicate ID {element_id} appears {count} times"

/-- Duplicate-`element_label` messages. -/
def dup_name_errors (records : List ElementRecord) : List String :=
  dup_errors (records.map (·.element_label)) fun name count =>
    s!"Duplicate element_label {name} appears {count} times"

/-- The color-format contribution of one record: `record.color` must be truthy
(non-`None`, non-empty) and fail the pattern to be reported. -/
def colorErrorOf (record : ElementRecord) : Option String :=
  match record.color with
  | some c =>
    if c ≠ "" && !(color_pattern_match c) then
      some s!"ID {record.id} ({record.element_label}): Invalid color format {c} (must be #RRGGBB)"
    else none
  | none => none

/-- Color-format messages. -/
def color_errors (records : List ElementRecord) : List String :=
  records.filterMap colorErrorOf

/-- `validate_csv`: all four checks run to completion and their messages are
concatenated; nothing is raised and nothing stops at the first problem. -/
def validate_csv (records : List ElementRecord) : List String :=
  seq_errors 0 records ++ dup_id_errors records ++ dup_name_errors records
    ++ color_errors records

/-! ## Category extractor (`extract_sets`) -/

/-- The loop of `extract_sets`, building the `seen_sets` (name, first index)
and `set_colors` (name, color) insertion-ordered dictionaries. -/
def collect : List ElementRecord → Nat → List (String × Nat) → List (String × String) →
    List (String × Nat) × List (String × String)
  | [], _, seen_sets, set_colors => (seen_sets, set_colors)
  | record :: rest, i, seen_sets, set_colors =>
    let set_name := record.set_label
    if (alookup set_name seen_sets).isSome then
      collect rest (i + 1) seen_sets set_colors
    else
      collect rest (i + 1) (seen_sets ++ [(set_name, i)])
        (set_colors ++ [(set_name, pyColorOr record.color (get_default_color set_name))])

/-- `extract_sets`: record first appearances, sort by first-appearance index
(Python `sorted` by key), and assign sequential ids by enumeration.  The color
lookup `set_colors[name]` always succeeds; its fallback is never taken. -/
def extract_sets (records : List ElementRecord) : List SetRecord :=
  let state := collect records 0 [] []
  let sorted_sets := List.insertionSort (fun a b => a.2 ≤ b.2) state.1
  sorted_sets.enum.map fun p =>
    { id := p.1, name := p.2.1,
      color := (alookup p.2.1 state.2).getD (get_default_color p.2.1) }

/-! ## Mapping file generators -/

/-- The rendered line for one element record. -/
def elementLine (record : ElementRecord) : String :=
  s!"{record.id} {record.element_label}"

/-- `generate_element_mapping`: newline-joined lines plus a trailing newline. -/
def generate_element_mapping (records : List ElementRecord) : String :=
  String.intercalate "\n" (records.map elementLine) ++ "\n"

/-- The rendered line for one set record. -/
def setLine (set_record : SetRecord) : String :=
  s!"{set_record.id} {set_record.name}"

/-- `generate_set_mapping`: newline-joined lines plus a trailing newline. -/
def generate_set_mapping (sets : List SetRecord) : String :=
  String.intercalate "\n" (sets.map setLine) ++ "\n"

/-! ## Database updater (`build_label_items_json`, `update_database`) -/

/-- One element object of the serialized `items_json` array. -/
structure LabelItem where
  elementId : Int
  name : String
  category : String
  color : String
  description : String
  enabled : Bool
deriving DecidableEq

/-- `element_label.replace('_', ' ')`: every underscore becomes a space (the
pattern is a single character, so this is a per-character replacement). -/
def replaceUnderscores (s : String) : String :=
  String.mk (s.data.map fun c => if c = '_' then ' ' else c)

/-- `build_label_items_json`: the items list is built by appending one object
per record in a loop (the `set_map` computed by the source is unused). -/
def build_label_items_json (records : List ElementRecord) (sets : List SetRecord) :
    List LabelItem :=
  let set_map := sets.map fun s => (s.name, s.id)
  records.foldl
    (fun items record =>
      items ++
        [{ elementId := record.id,
           name := record.element_label,
           category := record.set_label,
           color := pyColorOr record.color (get_default_color record.set_label),
           description := replaceUnderscores record.element_label,
           enabled := true }])
    (let _ := set_map; [])

/-- One row of the `label_sets` table. -/
structure DbRow where
  project : String
  version : Nat
  items_json : List LabelItem
  updated_by : String
  mapping_name : String
deriving DecidableEq

/-- `SELECT MAX(version) FROM label_sets WHERE project = ?`, with `(result or 0)`
mapping an empty result to 0. -/
def maxVersion (rows : List DbRow) (project : String) : Nat :=
  (rows.filter fun r => r.project = project).foldl (fun acc r => max acc r.version) 0

/-- Database-step errors: missing database file, or a transaction failure
(re-raised as `Database update failed: ...` after the rollback). -/
inductive DbError where
  | notFoundError : DbError
  | persistenceError (cause : String) : DbError
deriving DecidableEq

/-- Outcome of `update_database`: the database contents on return, the inserted
version if any, the raised error if any, and whether any opened connection was
left open (the `finally` clause closes it on every path). -/
structure UpdateResult where
  db : Option (List DbRow)
  version : Option Nat
  error : Option DbError
  connLeftOpen : Bool
deriving DecidableEq

/-- `update_database`.  `db = none` models a missing database file.  `fault`
injects a failure (with its message) anywhere inside the transaction; the
pending insert is then discarded by the rollback and the cause is wrapped in a
persistence error.  In dry-run mode the function only prints and returns. -/
def update_database (records : List ElementRecord) (sets : List SetRecord)
    (db : Option (List DbRow)) (project : String) (dry_run : Bool)
    (fault : Option String) : UpdateResult :=
  let items_json := build_label_items_json records sets
  if dry_run then
    { db := db, version := none, error := none, connLeftOpen := false }
  else
    match db with
    | none => { db := none, version := none, error := some .notFoundError, connLeftOpen := false }
    | some rows =>
      match fault with
      | some cause =>
        { db := some rows, version := none,
          error := some (.persistenceError s!"Database update failed: {cause}"),
          connLeftOpen := false }
      | none =>
        let next_version := maxVersion rows project + 1
        { db := some (rows ++
            [{ project := project, version := next_version, items_json := items_json,
               updated_by := "csv_import_script", mapping_name := "default" }]),
          version := some next_version, error := none, connLeftOpen := false }

/-! ## Backup/restore manager and orchestrator (`main`) -/

/-- The observable state touched by a run: the two mapping files (content, or
`none` if absent), the accumulated backup copies, and the database (`none` if
the database file is missing). -/
structure World where
  elementFile : Option String
  setFile : Option String
  backupFiles : List (String × String)
  db : Option (List DbRow)
deriving DecidableEq

/-- The `backup_paths` dictionary: for each mapping file, the content of its
backup copy if one was taken. -/
structure BackupPaths where
  element : Option String := none
  set : Option String := none
deriving DecidableEq

/-- `create_backups`: copy each existing mapping file to a timestamped sibling;
files that do not exist are skipped silently. -/
def create_backups (w : World) : BackupPaths × World :=
  let elementEntries := match w.elementFile with
    | some c => [("mapping_step_element.txt.backup", c)]
    | none => []
  let setEntries := match w.setFile with
    | some c => [("mapping_step_set.txt.backup", c)]
    | none => []
  ({ element := w.elementFile, set := w.setFile },
   { w with backupFiles := w.backupFiles ++ elementEntries ++ setEntries })

/-- `restore_from_backups`: copy each taken backup back over its target. -/
def restore_from_backups (backup_paths : BackupPaths) (w : World) : World :=
  let w₁ := match backup_paths.element with
    | some c => { w with elementFile := some c }
    | none => w
  match backup_paths.set with
  | some c => { w₁ with setFile := some c }
  | none => w₁

/-- Non-emptiness of the `backup_paths` dictionary. -/
def BackupPaths.nonempty (backup_paths : BackupPaths) : Bool :=
  backup_paths.element.isSome || backup_paths.set.isSome

/-- Injected failure of one of the two file writes; `leftover` is whatever the
interrupted write left in the target file (possibly nothing). -/
inductive WriteFault where
  | elementWrite (leftover : Option String)
  | setWrite (leftover : Option String)
deriving DecidableEq

/-- `write_mapping_files`: in dry-run mode only print; otherwise write the
element file then the set file.  Returns the world and whether both writes
succeeded. -/
def write_mapping_files (element_content set_content : String) (dry_run : Bool)
    (fault : Option WriteFault) (w : World) : World × Bool :=
  if dry_run then (w, true)
  else
    match fault with
    | some (.elementWrite leftover) => ({ w with elementFile := leftover }, false)
    | some (.setWrite leftover) =>
      ({ w with elementFile := some element_content, setFile := leftover }, false)
    | none =>
      ({ w with elementFile := some element_content, setFile := some set_content }, true)

/-- Fault injection for a whole run: at most one step fails. -/
inductive RunFault where
  | noFault
  | elementWrite (leftover : Option String)
  | setWrite (leftover : Option String)
  | dbFault (cause : String)
deriving DecidableEq

/-- The file-write component of a run fault. -/
def RunFault.writeFault : RunFault → Option WriteFault
  | .elementWrite leftover => some (.elementWrite leftover)
  | .setWrite leftover => some (.setWrite leftover)
  | _ => none

/-- The database-transaction component of a run fault. -/
def RunFault.txFault : RunFault → Option String
  | .dbFault cause => some cause
  | _ => none

/-- Command-line configuration: `--dry-run`, `--no-db`, `--project`. -/
structure Config where
  dry_run : Bool
  no_db : Bool
  project : String
deriving DecidableEq

/-- The rollback guard of `main`: `if backup_paths and not args.dry_run:
restore_from_backups(...)`. -/
def restoreIfBackups (backup_paths : BackupPaths) (dry_run : Bool) (w : World) : World :=
  if backup_paths.nonempty && !dry_run then restore_from_backups backup_paths w else w

/-- The orchestrator `main`, returning the final world and the process exit
code.  Reading or validation failures exit 1 before anything is written; in
dry-run mode every step through generation runs but nothing is touched; in
persisting mode backups are taken, both files are written, and (unless
`--no-db`) the database is updated, with restore-from-backups on any failure
after the backups were taken. -/
def main (csv_file : Option (List RawRow)) (args : Config) (fault : RunFault)
    (w : World) : World × Nat :=
  match read_csv csv_file with
  | .error _ => (w, 1)
  | .ok records =>
    if validate_csv records ≠ [] then (w, 1)
    else
      let sets := extract_sets records
      let element_content := generate_element_mapping records
      let set_content := generate_set_mapping sets
      if args.dry_run then
        let preview := write_mapping_files element_content set_content true fault.writeFault w
        let dbPreview :=
          if args.no_db then none
          else some (update_database records sets preview.1.db args.project true fault.txFault)
        let _ := dbPreview
        (preview.1, 0)
      else
        let backed := create_backups w
        let written := write_mapping_files element_content set_content false fault.writeFault backed.2
        if !written.2 then (restoreIfBackups backed.1 false written.1, 1)
        else if args.no_db then (written.1, 0)
        else
          let ur := update_database records sets written.1.db args.project false fault.txFault
          let w₃ := { written.1 with db := ur.db }
          match ur.error with
          | some _ => (restoreIfBackups backed.1 false w₃, 1)
          | none => (w₃, 0)

/-! ## Helper lemmas about the database updater -/

theorem init_le_foldl_max (l : List DbRow) (init : Nat) :
    init ≤ l.foldl (fun acc x => max acc x.version) init := by
  induction l generalizing init with
  | nil => exact Nat.le_refl init
  | cons a t ih => exact Nat.le_trans (Nat.le_max_left init a.version) (ih (max init a.version))

theorem le_foldl_max {l : List DbRow} {r : DbRow} (h : r ∈ l) (init : Nat) :
    r.version ≤ l.foldl (fun acc x => max acc x.version) init := by
  induction l generalizing init with
  | nil => cases h
  | cons a t ih =>
    rcases List.mem_cons.mp h with h₁ | h₂
    · subst h₁
      exact Nat.le_trans (Nat.le_max_right init r.version) (init_le_foldl_max t _)
    · exact ih h₂ (max init a.version)

theorem version_le_maxVersion {rows : List DbRow} {r : DbRow} {project : String}
    (hmem : r ∈ rows) (hproj : r.project = project) :
    r.version ≤ maxVersion rows project := by
  unfold maxVersion
  exact le_foldl_max (List.mem_filter.mpr ⟨hmem, by simp [hproj]⟩) 0

theorem maxVersion_append_row (rows : List DbRow) (project : String) (row : DbRow)
    (h : row.project = project) :
    maxVersion (rows ++ [row]) project = max (maxVersion rows project) row.version := by
  unfold maxVersion
  rw [List.filter_append, List.foldl_append]
  simp [h]

/-! ## Claim theorems: preview mode, database transaction, rollback -/

/-- **C5.** A preview-only (dry-run) run never changes the world — no file and
no database row is created, modified or deleted — and it exits successfully
exactly when reading and validation succeed. -/
theorem claim5_preview_mode_is_pure (csv_file : Option (List RawRow)) (no_db : Bool)
    (project : String) (fault : RunFault) (w : World) :
    (main csv_file ⟨true, no_db, project⟩ fault w).1 = w ∧
    ((main csv_file ⟨true, no_db, project⟩ fault w).2 = 0 ↔
      ∃ records, read_csv csv_file = .ok records ∧ validate_csv records = []) := by
  unfold main
  cases hread : read_csv csv_file with
  | error e =>
    refine ⟨rfl, ?_⟩
    constructor
    · intro h
      exact absurd h Nat.one_ne_zero
    · rintro ⟨records, hr, -⟩
      cases hr
  | ok records =>
    dsimp only
    by_cases hval : validate_csv records = []
    · rw [if_neg (by simp [hval])]
      refine ⟨rfl, ?_⟩
      constructor
      · intro _
        exact ⟨records, rfl, hval⟩
      · intro _
        rfl
    · rw [if_pos (by simp [hval])]
      refine ⟨rfl, ?_⟩
      constructor
      · intro h
        exact absurd h Nat.one_ne_zero
      · rintro ⟨records₁, hr, hv⟩
        cases hr
        exact absurd hv hval

/-- **C6.** If a failure is injected anywhere inside the database transaction,
the updater rolls back (the returned database equals the input, so no partial
row is visible), raises a persistence error wrapping the cause, and the
connection is closed; the connection is also closed on the success and
missing-file paths. -/
theorem claim6_db_failure_rolls_back (records : List ElementRecord) (sets : List SetRecord)
    (rows : List DbRow) (project : String) (cause : String) :
    (update_database records sets (some rows) project false (some cause)).db = some rows ∧
    (update_database records sets (some rows) project false (some cause)).error =
      some (.persistenceError s!"Database update failed: {cause}") ∧
    (update_database records sets (some rows) project false (some cause)).version = none ∧
    (update_database records sets (some rows) project false (some cause)).connLeftOpen = false ∧
    (update_database records sets (some rows) project false none).connLeftOpen = false ∧
    (update_database records sets none project false none).connLeftOpen = false :=
  ⟨rfl, rfl, rfl, rfl, rfl, rfl⟩

/-- **C2.** A successful database update appends exactly one row whose version
is one more than the current maximum for the project (an empty table yields
version 1), leaves every existing row in place, exceeds every existing version
of that project, and a second run with the same records appends a row with
identical `items_json` and the next version. -/
theorem claim2_versions_append_only (records : List ElementRecord) (sets : List SetRecord)
    (rows : List DbRow) (project : String) :
    (update_database records sets (some rows) project false none).db =
      some (rows ++ [{ project := project, version := maxVersion rows project + 1,
                       items_json := build_label_items_json records sets,
                       updated_by := "csv_import_script", mapping_name := "default" }]) ∧
    (update_database records sets (some rows) project false none).version =
      some (maxVersion rows project + 1) ∧
    (∀ r ∈ rows, r.project = project → r.version < maxVersion rows project + 1) ∧
    (update_database records sets (some []) project false none).version = some 1 ∧
    (update_database records sets
        (update_database records sets (some rows) project false none).db project false none).db =
      some (rows ++
        [{ project := project, version := maxVersion rows project + 1,
           items_json := build_label_items_json records sets,
           updated_by := "csv_import_script", mapping_name := "default" },
         { project := project, version := maxVersion rows project + 2,
           items_json := build_label_items_json records sets,
           updated_by := "csv_import_script", mapping_name := "default" }]) := by
  refine ⟨rfl, rfl, ?_, rfl, ?_⟩
  · intro r hmem hproj
    exact Nat.lt_succ_of_le (version_le_maxVersion hmem hproj)
  · show (update_database records sets
      (some (rows ++ [{ project := project, version := maxVersion rows project + 1,
                        items_json := build_label_items_json records sets,
                        updated_by := "csv_import_script", mapping_name := "default" }]))
      project false none).db = _
    unfold update_database
    simp only [Bool.false_eq_true, if_false, ite_false]
    rw [maxVersion_append_row rows project _ rfl]
    have hmax : max (maxVersion rows project) (maxVersion rows project + 1) =
        maxVersion rows project + 1 := Nat.max_eq_right (Nat.le_succ _)
    rw [hmax, List.append_assoc]
    rfl

/-! ## Helper lemmas about backup restore, for the orchestrator claims -/

theorem restoreIfBackups_elementFile (w w₂ : World) (c : String)
    (h : w.elementFile = some c) :
    (restoreIfBackups (create_backups w).1 false w₂).elementFile = some c := by
  unfold restoreIfBackups create_backups restore_from_backups BackupPaths.nonempty
  simp only [h]
  cases w.setFile <;> simp

theorem restoreIfBackups_setFile (w w₂ : World) (c : String)
    (h : w.setFile = some c) :
    (restoreIfBackups (create_backups w).1 false w₂).setFile = some c := by
  unfold restoreIfBackups create_backups restore_from_backups BackupPaths.nonempty
  simp only [h]
  cases w.elementFile <;> simp

/-- **C1.** In persisting mode, when a mapping-file write or the database step
fails (including a missing database file), the run exits with failure and every
mapping file that existed before the run holds exactly its pre-run content
afterwards, restored from its backup. -/
theorem claim1_failed_persist_restores_files (csv_file : Option (List RawRow))
    (no_db : Bool) (project : String) (fault : RunFault) (w : World)
    (records : List ElementRecord)
    (hread : read_csv csv_file = .ok records)
    (hval : validate_csv records = [])
    (hfail : (∃ l, fault = RunFault.elementWrite l) ∨ (∃ l, fault = RunFault.setWrite l) ∨
      (no_db = false ∧ ∃ c, fault = RunFault.dbFault c) ∨
      (no_db = false ∧ fault = RunFault.noFault ∧ w.db = none)) :
    (main csv_file ⟨false, no_db, project⟩ fault w).2 = 1 ∧
    (∀ c, w.elementFile = some c →
      (main csv_file ⟨false, no_db, project⟩ fault w).1.elementFile = some c) ∧
    (∀ c, w.setFile = some c →
      (main csv_file ⟨false, no_db, project⟩ fault w).1.setFile = some c) := by
  obtain ⟨we, ws, wb, wdb⟩ := w
  unfold main
  cases hr2 : read_csv csv_file with
  | error e =>
    rw [hr2] at hread
    cases hread
  | ok records₂ =>
    rw [hr2] at hread
    injection hread with h
    subst h
    dsimp only
    rw [if_neg (by simp [hval])]
    rcases hfail with ⟨l, hf⟩ | ⟨l, hf⟩ | ⟨hdb, c₀, hf⟩ | ⟨hdb, hf, hmiss⟩
    · subst hf
      exact ⟨rfl,
        fun c hc => restoreIfBackups_elementFile ⟨we, ws, wb, wdb⟩ _ c hc,
        fun c hc => restoreIfBackups_setFile ⟨we, ws, wb, wdb⟩ _ c hc⟩
    · subst hf
      exact ⟨rfl,
        fun c hc => restoreIfBackups_elementFile ⟨we, ws, wb, wdb⟩ _ c hc,
        fun c hc => restoreIfBackups_setFile ⟨we, ws, wb, wdb⟩ _ c hc⟩
    · subst hf hdb
      cases wdb with
      | none =>
        exact ⟨rfl,
          fun c hc => restoreIfBackups_elementFile ⟨we, ws, wb, none⟩ _ c hc,
          fun c hc => restoreIfBackups_setFile ⟨we, ws, wb, none⟩ _ c hc⟩
      | some rows =>
        exact ⟨rfl,
          fun c hc => restoreIfBackups_elementFile ⟨we, ws, wb, some rows⟩ _ c hc,
          fun c hc => restoreIfBackups_setFile ⟨we, ws, wb, some rows⟩ _ c hc⟩
    · subst hf hdb
      have hmiss₂ : wdb = none := hmiss
      subst hmiss₂
      exact ⟨rfl,
        fun c hc => restoreIfBackups_elementFile ⟨we, ws, wb, none⟩ _ c hc,
        fun c hc => restoreIfBackups_setFile ⟨we, ws, wb, none⟩ _ c hc⟩

/-- Closed instance of C1: a persisting run over existing mapping files with a
forced database failure leaves both files byte-identical to their pre-run
content and exits 1. -/
theorem claim1_witness :
    (main (some [{ id := "0", set_label := "A", element_label := "x" }])
        ⟨false, false, "default"⟩ (.dbFault "boom")
        ⟨some "OLD ELEMENT", some "OLD SET", [], some []⟩).2 = 1 ∧
    (main (some [{ id := "0", set_label := "A", element_label := "x" }])
        ⟨false, false, "default"⟩ (.dbFault "boom")
        ⟨some "OLD ELEMENT", some "OLD SET", [], some []⟩).1.elementFile = some "OLD ELEMENT" ∧
    (main (some [{ id := "0", set_label := "A", element_label := "x" }])
        ⟨false, false, "default"⟩ (.dbFault "boom")
        ⟨some "OLD ELEMENT", some "OLD SET", [], some []⟩).1.setFile = some "OLD SET" := by
  have h := claim1_failed_persist_restores_files
    (some [{ id := "0", set_label := "A", element_label := "x" }]) false "default"
    (.dbFault "boom") ⟨some "OLD ELEMENT", some "OLD SET", [], some []⟩
    [{ id := 0, set_label := "A", element_label := "x" }]
    rfl (by decide)
    (Or.inr (Or.inr (Or.inl ⟨rfl, "boom", rfl⟩)))
  exact ⟨h.1, h.2.1 "OLD ELEMENT" rfl, h.2.2 "OLD SET" rfl⟩

/-! ## Line structure of the generated mapping texts -/

/-- Split a character sequence at newline characters (the resulting segments
do not contain the separator; a trailing newline yields a final empty segment). -/

def splitNl : List Char → List (List Char)
  | [] => [[]]
  | c :: rest =>
    if c = '\n' then [] :: splitNl rest
    else (c :: (splitNl rest).headD []) :: (splitNl rest).tail

theorem splitNl_cons (c : Char) (rest : List Char) :
    splitNl (c :: rest) = if c = '\n' then [] :: splitNl rest
      else (c :: (splitNl rest).headD []) :: (splitNl rest).tail := rfl

theorem splitNl_line (l t : List Char) (hl : '\n' ∉ l) :
    splitNl (l ++ '\n' :: t) = l :: splitNl t := by
  induction l with
  | nil => simp [splitNl_cons]
  | cons c l ih =>
    have hc : c ≠ '\n' := fun e => hl (e ▸ List.mem_cons_self c l)
    have hl₂ : '\n' ∉ l := fun m => hl (List.mem_cons_of_mem c m)
    rw [List.cons_append, splitNl_cons, if_neg hc, ih hl₂]
    rfl

theorem splitNl_flatten (ls : List (List Char)) (h : ∀ l ∈ ls, '\n' ∉ l) :
    splitNl ((ls.map (fun l => l ++ ['\n'])).flatten) = ls ++ [[]] := by
  induction ls with
  | nil => rfl
  | cons l rest ih =>
    simp only [List.map_cons, List.flatten_cons, List.append_assoc]
    rw [show (['\n'] ++ (rest.map (fun l => l ++ ['\n'])).flatten)
        = '\n' :: (rest.map (fun l => l ++ ['\n'])).flatten from rfl]
    rw [splitNl_line _ _ (h l (List.mem_cons_self l rest))]
    rw [ih (fun x hx => h x (List.mem_cons_of_mem l hx))]
    rfl

theorem intercalate_go_data (as : List String) : ∀ acc : String,
    (String.intercalate.go acc "\n" as).data
      = acc.data ++ (as.map (fun l => '\n' :: l.data)).flatten := by
  induction as with
  | nil => intro acc; simp [String.intercalate.go]
  | cons b bs ih =>
    intro acc
    rw [show String.intercalate.go acc "\n" (b :: bs)
        = String.intercalate.go (acc ++ "\n" ++ b) "\n" bs from rfl]
    rw [ih]
    simp [String.data_append, List.append_assoc]

theorem flatten_shift (a : List Char) (ls : List (List Char)) :
    a ++ (ls.map (fun l => '\n' :: l)).flatten ++ ['\n']
      = ((a :: ls).map (fun l => l ++ ['\n'])).flatten := by
  induction ls generalizing a with
  | nil => simp
  | cons b bs ih =>
    simp only [List.map_cons, List.flatten_cons] at ih ⊢
    rw [← ih b]
    simp [List.append_assoc]

def textLines (s : String) : List String :=
  ((splitNl s.data).dropLast).map String.mk

theorem toDigitsCore_mem (b : Nat) : ∀ (fuel n : Nat) (ds : List Char) (c : Char),
    c ∈ Nat.toDigitsCore b fuel n ds → c ∈ ds ∨ ∃ m, c = Nat.digitChar m := by
  intro fuel
  induction fuel with
  | zero => intro n ds c h; exact Or.inl h
  | succ fuel ih =>
    intro n ds c h
    unfold Nat.toDigitsCore at h
    dsimp only at h
    split at h
    · rcases List.mem_cons.mp h with h₁ | h₂
      · exact Or.inr ⟨n % b, h₁⟩
      · exact Or.inl h₂
    · rcases ih _ _ _ h with h₁ | h₂
      · rcases List.mem_cons.mp h₁ with h₃ | h₄
        · exact Or.inr ⟨n % b, h₃⟩
        · exact Or.inl h₄
      · exact Or.inr h₂

theorem digitChar_ne_newline : ∀ n : Nat, Nat.digitChar n ≠ '\n'
  | 0 => by decide
  | 1 => by decide
  | 2 => by decide
  | 3 => by decide
  | 4 => by decide
  | 5 => by decide
  | 6 => by decide
  | 7 => by decide
  | 8 => by decide
  | 9 => by decide
  | 10 => by decide
  | 11 => by decide
  | 12 => by decide
  | 13 => by decide
  | 14 => by decide
  | 15 => by decide
  | (n + 16) => by
    unfold Nat.digitChar
    iterate 16 rw [if_neg (by omega)]
    decide

theorem nat_repr_no_newline (n : Nat) : '\n' ∉ (Nat.repr n).data := by
  intro h
  rcases toDigitsCore_mem 10 (n + 1) n [] '\n' h with h₁ | ⟨m, hm⟩
  · cases h₁
  · exact digitChar_ne_newline m hm.symm

theorem int_toString_no_newline (i : Int) : '\n' ∉ (toString i).data := by
  cases i with
  | ofNat m => exact nat_repr_no_newline m
  | negSucc m =>
    show '\n' ∉ ("-" ++ Nat.repr (m + 1)).data
    rw [String.data_append]
    intro h
    rcases List.mem_append.mp h with h₁ | h₂
    · exact absurd h₁ (by decide)
    · exact nat_repr_no_newline (m + 1) h₂

theorem join_data_aux (l : List String) : ∀ acc : String,
    (l.foldl (fun r s => r ++ s) acc).data = acc.data ++ (l.map String.data).flatten := by
  induction l with
  | nil => intro acc; simp
  | cons b bs ih =>
    intro acc
    rw [List.foldl_cons, ih, String.data_append]
    simp [List.append_assoc]

theorem join_data (l : List String) : (String.join l).data = (l.map String.data).flatten := by
  show (l.foldl (fun r s => r ++ s) "").data = _
  rw [join_data_aux]
  rfl

theorem textLines_intercalate (lines : List String) (hne : lines ≠ [])
    (h : ∀ l ∈ lines, '\n' ∉ l.data) :
    textLines (String.intercalate "\n" lines ++ "\n") = lines ∧
    String.intercalate "\n" lines ++ "\n" = String.join (lines.map (· ++ "\n")) := by
  obtain ⟨a, as, rfl⟩ := List.exists_cons_of_ne_nil hne
  have hdata : (String.intercalate "\n" (a :: as) ++ "\n").data
      = (((a :: as).map String.data).map (fun l => l ++ ['\n'])).flatten := by
    rw [String.data_append,
        show String.intercalate "\n" (a :: as) = String.intercalate.go a "\n" as from rfl,
        intercalate_go_data]
    rw [show ("\n" : String).data = ['\n'] from rfl]
    rw [show (as.map (fun l => '\n' :: l.data)) = ((as.map String.data).map (fun l => '\n' :: l)) from by
      rw [List.map_map]; rfl]
    exact flatten_shift a.data (as.map String.data)
  constructor
  · unfold textLines
    rw [hdata, splitNl_flatten _ (by
      intro l hl
      rcases List.mem_map.mp hl with ⟨s, hs, rfl⟩
      exact h s hs)]
    rw [List.dropLast_concat]
    rw [List.map_map]
    exact List.map_congr_left (fun s _ => rfl) |>.trans (List.map_id _)
  · apply String.ext
    rw [hdata, join_data, List.map_map, List.map_map]
    congr 1

theorem toString_string (s : String) : toString s = s := rfl

theorem elementLine_data (r : ElementRecord) :
    (elementLine r).data = (toString r.id).data ++ ' ' :: r.element_label.data := by
  unfold elementLine
  simp [String.data_append, toString_string,
    show ("" : String).data = [] from rfl, show (" " : String).data = [' '] from rfl]

theorem setLine_data (s : SetRecord) :
    (setLine s).data = (toString s.id).data ++ ' ' :: s.name.data := by
  unfold setLine
  simp [String.data_append, toString_string,
    show ("" : String).data = [] from rfl, show (" " : String).data = [' '] from rfl]

theorem nat_toString_no_newline (n : Nat) : '\n' ∉ (toString n).data :=
  nat_repr_no_newline n

theorem elementLine_no_newline (r : ElementRecord) (h : '\n' ∉ r.element_label.data) :
    '\n' ∉ (elementLine r).data := by
  rw [elementLine_data]
  intro hmem
  rcases List.mem_append.mp hmem with h₁ | h₂
  · exact int_toString_no_newline r.id h₁
  · rcases List.mem_cons.mp h₂ with h₃ | h₄
    · exact absurd h₃ (by decide)
    · exact h h₄

theorem setLine_no_newline (s : SetRecord) (h : '\n' ∉ s.name.data) :
    '\n' ∉ (setLine s).data := by
  rw [setLine_data]
  intro hmem
  rcases List.mem_append.mp hmem with h₁ | h₂
  · exact nat_toString_no_newline s.id h₁
  · rcases List.mem_cons.mp h₂ with h₃ | h₄
    · exact absurd h₃ (by decide)
    · exact h h₄

/-- **C8, counterexample.** As universally stated the claim fails at two
boundary inputs: the empty record list produces the text `"\n"` — one blank
line, not zero lines — and an element label containing a newline splits its
record over two lines. -/
theorem claim8_counterexample :
    (textLines (generate_element_mapping ([] : List ElementRecord))).length
        ≠ ([] : List ElementRecord).length ∧
    (textLines (generate_element_mapping
        [{ id := 0, set_label := "A", element_label := "x\ny" }])).length
        ≠ [({ id := 0, set_label := "A", element_label := "x\ny" } : ElementRecord)].length := by
  decide

/-- **C8, amended.** For every nonempty record list whose element labels
contain no newline (and nonempty set list whose names contain none): the
element-mapping text has exactly N lines, line i being `"{id} {element_label}"`
of record i in record order, every line newline-terminated (the text is the
concatenation of the lines each followed by a newline); and likewise for the
set mapping.  Both generators are plain functions of their inputs. -/
theorem claim8_mapping_file_lines (records : List ElementRecord) (sets : List SetRecord)
    (hrec : records ≠ []) (hsets : sets ≠ [])
    (hlabel : ∀ r ∈ records, '\n' ∉ r.element_label.data)
    (hname : ∀ s ∈ sets, '\n' ∉ s.name.data) :
    textLines (generate_element_mapping records) = records.map elementLine ∧
    (textLines (generate_element_mapping records)).length = records.length ∧
    generate_element_mapping records
      = String.join (records.map fun r => elementLine r ++ "\n") ∧
    textLines (generate_set_mapping sets) = sets.map setLine ∧
    (textLines (generate_set_mapping sets)).length = sets.length ∧
    generate_set_mapping sets = String.join (sets.map fun s => setLine s ++ "\n") := by
  have hne₁ : records.map elementLine ≠ [] := by
    intro h
    exact hrec (List.map_eq_nil_iff.mp h)
  have hne₂ : sets.map setLine ≠ [] := by
    intro h
    exact hsets (List.map_eq_nil_iff.mp h)
  have hln₁ : ∀ l ∈ records.map elementLine, '\n' ∉ l.data := by
    intro l hl
    rcases List.mem_map.mp hl with ⟨r, hr, rfl⟩
    exact elementLine_no_newline r (hlabel r hr)
  have hln₂ : ∀ l ∈ sets.map setLine, '\n' ∉ l.data := by
    intro l hl
    rcases List.mem_map.mp hl with ⟨s, hs, rfl⟩
    exact setLine_no_newline s (hname s hs)
  have h₁ := textLines_intercalate (records.map elementLine) hne₁ hln₁
  have h₂ := textLines_intercalate (sets.map setLine) hne₂ hln₂
  have e₁ : textLines (generate_element_mapping records) = records.map elementLine := h₁.1
  have e₂ : generate_element_mapping records
      = String.join ((records.map elementLine).map (fun x => x ++ "\n")) := h₁.2
  have e₃ : textLines (generate_set_mapping sets) = sets.map setLine := h₂.1
  have e₄ : generate_set_mapping sets
      = String.join ((sets.map setLine).map (fun x => x ++ "\n")) := h₂.2
  refine ⟨e₁, ?_, ?_, e₃, ?_, ?_⟩
  · rw [e₁, List.length_map]
  · exact e₂.trans (by rw [List.map_map]; rfl)
  · rw [e₃, List.length_map]
  · exact e₄.trans (by rw [List.map_map]; rfl)

/-- Closed instance of the amended C8 at a two-record, one-set input. -/
theorem claim8_witness :
    textLines (generate_element_mapping
        [{ id := 0, set_label := "A", element_label := "x" },
         { id := 1, set_label := "A", element_label := "y" }])
      = [elementLine { id := 0, set_label := "A", element_label := "x" },
         elementLine { id := 1, set_label := "A", element_label := "y" }] ∧
    textLines (generate_set_mapping [{ id := 0, name := "A", color := "#9ca3af" }])
      = [setLine { id := 0, name := "A", color := "#9ca3af" }] := by
  have h := claim8_mapping_file_lines
    [{ id := 0, set_label := "A", element_label := "x" },
     { id := 1, set_label := "A", element_label := "y" }]
    [{ id := 0, name := "A", color := "#9ca3af" }]
    (by decide) (by decide) (by decide) (by decide)
  exact ⟨h.1, h.2.2.2.1⟩

/-! ## Validator characterization (C3) -/

/-- The spec-side color pattern: `#` followed by exactly six hex digits
(no trailing-newline allowance). -/
def specHexColor (s : String) : Bool :=
  match s.data with
  | c :: rest => (c = '#') && (rest.length = 6) && rest.all isHexAscii
  | [] => false

/-- The validity predicate stated by the claim: ids are exactly `0..N-1` in
order, element labels are pairwise distinct, and every present color matches
`#` plus six hex digits. -/
def claimValidRecords (records : List ElementRecord) : Prop :=
  (∀ i (h : i < records.length), (records.get ⟨i, h⟩).id = (i : Int)) ∧
  (records.map (·.element_label)).Nodup ∧
  (∀ r ∈ records, ∀ c, r.color = some c → specHexColor c = true)

theorem seq_errors_nil_iff (records : List ElementRecord) : ∀ n,
    seq_errors n records = [] ↔
      ∀ i (h : i < records.length), (records.get ⟨i, h⟩).id = ((n + i : Nat) : Int) := by
  induction records with
  | nil =>
    intro n
    exact ⟨fun _ i h => absurd h (Nat.not_lt_zero i), fun _ => rfl⟩
  | cons r rest ih =>
    intro n
    rw [show seq_errors n (r :: rest)
        = (if r.id ≠ (n : Int) then
            [s!"Element at row {n + 2}: Expected ID {n}, got {r.id} (IDs must be sequential starting from 0)"]
           else [])
          ++ seq_errors (n + 1) rest from rfl]
    rw [List.append_eq_nil]
    constructor
    · rintro ⟨h₁, h₂⟩
      have hr : r.id = (n : Int) := by
        by_cases hc : r.id = (n : Int)
        · exact hc
        · rw [if_pos hc] at h₁
          cases h₁
      intro i h
      cases i with
      | zero =>
        simpa using hr
      | succ i =>
        have := (ih (n + 1)).mp h₂ i (Nat.lt_of_succ_lt_succ h)
        rw [List.get_cons_succ]
        rw [show n + 1 + i = n + (i + 1) from by omega] at this
        exact this
    · intro hall
      constructor
      · have h0 := hall 0 (Nat.succ_pos _)
        rw [if_neg]
        simp only [ne_eq, Decidable.not_not]
        simpa using h0
      · refine (ih (n + 1)).mpr ?_
        intro i h
        have := hall (i + 1) (Nat.succ_lt_succ h)
        rw [List.get_cons_succ] at this
        rw [show n + 1 + i = n + (i + 1) from by omega]
        exact this

theorem mem_firstAppear {α : Type} [DecidableEq α] (l : List α) (a : α) :
    a ∈ firstAppear l ↔ a ∈ l := by
  induction l with
  | nil => exact Iff.rfl
  | cons x xs ih =>
    rw [show firstAppear (x :: xs) = x :: (firstAppear xs).filter (fun y => y ≠ x) from rfl]
    by_cases hax : a = x
    · subst hax
      simp
    · simp only [List.mem_cons, hax, false_or, List.mem_filter, ih,
        decide_eq_true_eq, ne_eq]
      exact ⟨fun h => h.1, fun h => ⟨h, not_false⟩⟩

theorem dup_errors_nil_iff {α : Type} [DecidableEq α] (keys : List α) (fmt : α → Nat → String) :
    dup_errors keys fmt = [] ↔ keys.Nodup := by
  unfold dup_errors
  rw [List.filterMap_eq_nil_iff]
  constructor
  · intro h
    rw [List.nodup_iff_count_le_one]
    intro a
    by_cases hm : a ∈ keys
    · have := h a ((mem_firstAppear keys a).mpr hm)
      by_contra hgt
      rw [if_pos (by omega)] at this
      cases this
    · rw [List.count_eq_zero.mpr hm]
      omega
  · intro h a _
    have := List.nodup_iff_count_le_one.mp h a
    rw [if_neg (by omega)]

theorem head?_dropWhile {p : Char → Bool} : ∀ (l : List Char) (c : Char),
    (l.dropWhile p).head? = some c → p c = false := by
  intro l
  induction l with
  | nil =>
    intro c h
    cases h
  | cons a t ih =>
    intro c h
    rw [List.dropWhile_cons] at h
    split at h
    · exact ih c h
    · injection h with h₂
      subst h₂
      rename_i hp
      exact Bool.not_eq_true _ ▸ (by simpa using hp)

theorem stripChars_last_not_space (cs : List Char) (c : Char)
    (h : (stripChars cs).getLast? = some c) : pyIsSpace c = false := by
  unfold stripChars at h
  rw [List.getLast?_reverse] at h
  exact head?_dropWhile _ c h

theorem pyStrip_data (s : String) : (pyStrip s).data = stripChars s.data := rfl

/-- On strings whose last character is not whitespace — in particular on the
stripped colors the reader stores — the Python regex match coincides with the
spec pattern `#` + six hex digits. -/
theorem color_match_eq_spec (c : String)
    (h : ∀ ch, c.data.getLast? = some ch → pyIsSpace ch = false) :
    color_pattern_match c = specHexColor c := by
  unfold color_pattern_match specHexColor
  cases hd : c.data with
  | nil => rfl
  | cons x rest =>
    by_cases hx : x = '#'
    · subst hx
      cases hrest : rest.getLast? with
      | some ch =>
        by_cases hnl : ch = '\n'
        · subst hnl
          exfalso
          have hne : rest ≠ [] := by
            intro he
            rw [he] at hrest
            cases hrest
          obtain ⟨y, ys, rfl⟩ := List.exists_cons_of_ne_nil hne
          have : c.data.getLast? = some '\n' := by
            rw [hd, List.getLast?_cons_cons]
            exact hrest
          have := h '\n' this
          simp [pyIsSpace] at this
        · have : (decide (rest.getLast? = some '\n')) = false := by
            simp [hrest, hnl]
          simp [this, Bool.and_assoc]
      | none =>
        have : (decide (rest.getLast? = some '\n')) = false := by
          simp [hrest]
        simp [this, Bool.and_assoc]
    · simp [hx]

theorem ids_map_eq_range (records : List ElementRecord)
    (h : ∀ i (hi : i < records.length), (records.get ⟨i, hi⟩).id = (i : Int)) :
    records.map (·.id) = (List.range records.length).map Int.ofNat := by
  apply List.ext_get
  · simp
  · intro n h₁ h₂
    rw [List.get_map, List.get_map, List.get_range]
    exact h n (by simpa using h₁)

theorem ids_nodup (records : List ElementRecord)
    (h : ∀ i (hi : i < records.length), (records.get ⟨i, hi⟩).id = (i : Int)) :
    (records.map (·.id)).Nodup := by
  rw [ids_map_eq_range records h]
  exact List.Nodup.map (fun a b hab => Int.ofNat.inj hab) (List.nodup_range _)

/-- Unfolding equation for `readRows` on a cons cell. -/
theorem readRows_cons (n : Nat) (row : RawRow) (rest : List RawRow) :
    readRows n (row :: rest) = match pyInt row.id with
      | none => .error (.invalidIdFormat n row.id)
      | some element_id =>
        if pyStrip row.set_label = "" then .error (.emptySetLabel n)
        else if pyStrip row.element_label = "" then .error (.emptyElementLabel n)
        else match readRows (n + 1) rest with
          | .error e => .error e
          | .ok records =>
            .ok ({ id := element_id, set_label := pyStrip row.set_label,
                   element_label := pyStrip row.element_label,
                   color := pyOptStrip row.color } :: records) := rfl

/-- Every color stored by the reader is non-empty and stripped (its last
character is not whitespace). -/
theorem readRows_ok_colorWf : ∀ (rows : List RawRow) (n : Nat) (records : List ElementRecord),
    readRows n rows = .ok records →
    ∀ r ∈ records, ∀ c, r.color = some c →
      c ≠ "" ∧ ∀ ch, c.data.getLast? = some ch → pyIsSpace ch = false := by
  intro rows
  induction rows with
  | nil =>
    intro n records h r hr
    injection h with h₂
    subst h₂
    cases hr
  | cons row rest ih =>
    intro n records h r hr c hc
    rw [readRows_cons] at h
    split at h
    · cases h
    · split at h
      · cases h
      · split at h
        · cases h
        · split at h
          · cases h
          · injection h with h₂
            subst h₂
            rcases List.mem_cons.mp hr with h₃ | h₄
            · subst h₃
              dsimp only at hc
              cases hcol : row.color with
              | none =>
                rw [hcol] at hc
                exact absurd hc (by simp [pyOptStrip])
              | some c₀ =>
                rw [hcol] at hc
                rw [show pyOptStrip (some c₀)
                    = if pyStrip c₀ = "" then none else some (pyStrip c₀) from rfl] at hc
                split at hc
                · cases hc
                · injection hc with h₅
                  subst h₅
                  rename_i hne
                  refine ⟨hne, ?_⟩
                  intro ch hch
                  rw [pyStrip_data] at hch
                  exact stripChars_last_not_space _ ch hch
            · rename_i heq
              exact ih (n + 1) _ heq r h₄ c hc

/-- Colors stored by `read_csv` are non-empty and end in a non-whitespace
character. -/
theorem read_csv_colorWf (rows : List RawRow) (records : List ElementRecord)
    (hread : read_csv (some rows) = .ok records) :
    ∀ r ∈ records, ∀ c, r.color = some c →
      c ≠ "" ∧ ∀ ch, c.data.getLast? = some ch → pyIsSpace ch = false := by
  unfold read_csv at hread
  dsimp only at hread
  cases hrr : readRows 2 rows with
  | error e =>
    rw [hrr] at hread
    cases hread
  | ok records₂ =>
    rw [hrr] at hread
    split at hread
    · cases hread
    · rename_i records₃ heq
      injection heq with h₃
      subst h₃
      split at hread
      · cases hread
      · injection hread with h₂
        subst h₂
        exact readRows_ok_colorWf rows 2 _ hrr

/-- **C3.** For records produced by the reader, validation returns the empty
problem list exactly when ids are `0..N-1` in order, element labels are
pairwise distinct, and every present color is `#` plus six hex digits; the
list is assembled from all four checks run to completion (never stopping at
the first problem); and a non-empty problem list makes the orchestrator exit 1
with the world — files and database — untouched. -/
theorem claim3_validation_iff_and_hard_stop :
    (∀ rows records, read_csv (some rows) = .ok records →
      (validate_csv records = [] ↔ claimValidRecords records)) ∧
    (∀ csv_file args fault w records, read_csv csv_file = .ok records →
      validate_csv records ≠ [] → main csv_file args fault w = (w, 1)) := by
  constructor
  · intro rows records hread
    have hwf := read_csv_colorWf rows records hread
    unfold validate_csv
    rw [List.append_eq_nil, List.append_eq_nil, List.append_eq_nil]
    constructor
    · rintro ⟨⟨⟨hseq, -⟩, hdupname⟩, hcolor⟩
      refine ⟨?_, ?_, ?_⟩
      · intro i hi
        have := (seq_errors_nil_iff records 0).mp hseq i hi
        simpa using this
      · exact (dup_errors_nil_iff _ _).mp hdupname
      · intro r hr c hc
        have hnone := (List.filterMap_eq_nil_iff.mp hcolor) r hr
        obtain ⟨hne, hlast⟩ := hwf r hr c hc
        cases hspec : specHexColor c with
        | true => rfl
        | false =>
          exfalso
          have hm : color_pattern_match c = false := by
            rw [color_match_eq_spec c hlast, hspec]
          have hcond : (decide (c ≠ "") && !color_pattern_match c) = true := by
            simp [hne, hm]
          have hsome : colorErrorOf r ≠ none := by
            unfold colorErrorOf
            rw [hc]
            dsimp only
            rw [if_pos hcond]
            exact Option.some_ne_none _
          exact hsome hnone
    · rintro ⟨hids, hnames, hcolors⟩
      refine ⟨⟨⟨?_, ?_⟩, ?_⟩, ?_⟩
      · exact (seq_errors_nil_iff records 0).mpr (fun i h => by simpa using hids i h)
      · exact (dup_errors_nil_iff _ _).mpr (ids_nodup records hids)
      · exact (dup_errors_nil_iff _ _).mpr hnames
      · apply List.filterMap_eq_nil_iff.mpr
        intro r hr
        cases hc : r.color with
        | none =>
          unfold colorErrorOf
          rw [hc]
        | some c =>
          obtain ⟨hne, hlast⟩ := hwf r hr c hc
          have hspec := hcolors r hr c hc
          have hm : color_pattern_match c = true := by
            rw [color_match_eq_spec c hlast]
            exact hspec
          unfold colorErrorOf
          rw [hc]
          dsimp only
          rw [if_neg]
          simp [hm]
  · intro csv_file args fault w records hread hval
    unfold main
    cases hr2 : read_csv csv_file with
    | error e =>
      rw [hr2] at hread
    | ok records₂ =>
      rw [hr2] at hread
      injection hread with h
      subst h
      dsimp only
      rw [if_pos hval]

/-- Closed instance of C3: a valid one-row CSV validates to zero problems, and
a run whose records fail validation leaves the world unchanged and exits 1. -/
theorem claim3_witness :
    (validate_csv [{ id := 0, set_label := "A", element_label := "x" }] = [] ↔
      claimValidRecords [{ id := 0, set_label := "A", element_label := "x" }]) ∧
    main (some [{ id := "5", set_label := "A", element_label := "x" }])
        ⟨false, false, "default"⟩ .noFault ⟨none, none, [], none⟩
      = (⟨none, none, [], none⟩, 1) := by
  constructor
  · exact claim3_validation_iff_and_hard_stop.1
      [{ id := "0", set_label := "A", element_label := "x" }] _ rfl
  · exact claim3_validation_iff_and_hard_stop.2 _ ⟨false, false, "default"⟩ .noFault _
      [{ id := 5, set_label := "A", element_label := "x" }] rfl (by decide)

/-! ## Reader contract (C7) -/

/-- A raw row the reader accepts: parseable id, non-empty labels after strip. -/
def rowGood (row : RawRow) : Prop :=
  (pyInt row.id).isSome = true ∧ pyStrip row.set_label ≠ "" ∧ pyStrip row.element_label ≠ ""

instance (row : RawRow) : Decidable (rowGood row) := by
  unfold rowGood
  infer_instance

/-- The record the reader produces from an accepted row. -/
def convRow (row : RawRow) : ElementRecord :=
  { id := (pyInt row.id).getD 0,
    set_label := pyStrip row.set_label,
    element_label := pyStrip row.element_label,
    color := pyOptStrip row.color }

theorem readRows_ok_of_good : ∀ (rows : List RawRow) (n : Nat),
    (∀ row ∈ rows, rowGood row) → readRows n rows = .ok (rows.map convRow) := by
  intro rows
  induction rows with
  | nil =>
    intro n _
    rfl
  | cons row rest ih =>
    intro n hall
    obtain ⟨hid, hset, hel⟩ := hall row (List.mem_cons_self row rest)
    obtain ⟨v, hv⟩ := Option.isSome_iff_exists.mp hid
    rw [readRows_cons, hv]
    dsimp only
    rw [if_neg hset, if_neg hel,
      ih (n + 1) (fun r hr => hall r (List.mem_cons_of_mem row hr))]
    dsimp only
    rw [List.map_cons]
    have hconv : convRow row
        = { id := v, set_label := pyStrip row.set_label,
            element_label := pyStrip row.element_label,
            color := pyOptStrip row.color } := by
      unfold convRow
      rw [hv]
      rfl
    rw [hconv]

theorem readRows_error_at : ∀ (rows : List RawRow) (n k : Nat) (h : k < rows.length),
    (∀ j (hj : j < k), rowGood (rows.get ⟨j, Nat.lt_trans hj h⟩)) →
    ((pyInt (rows.get ⟨k, h⟩).id = none →
        readRows n rows = .error (.invalidIdFormat (n + k) (rows.get ⟨k, h⟩).id)) ∧
     (pyStrip (rows.get ⟨k, h⟩).set_label = "" → (pyInt (rows.get ⟨k, h⟩).id).isSome = true →
        readRows n rows = .error (.emptySetLabel (n + k))) ∧
     (pyStrip (rows.get ⟨k, h⟩).element_label = "" → pyStrip (rows.get ⟨k, h⟩).set_label ≠ "" →
        (pyInt (rows.get ⟨k, h⟩).id).isSome = true →
        readRows n rows = .error (.emptyElementLabel (n + k)))) := by
  intro rows
  induction rows with
  | nil =>
    intro n k h
    exact absurd h (Nat.not_lt_zero k)
  | cons row rest ih =>
    intro n k h hgood
    cases k with
    | zero =>
      refine ⟨?_, ?_, ?_⟩
      · intro hnone
        have hnone₂ : pyInt row.id = none := hnone
        rw [readRows_cons, hnone₂]
        rfl
      · intro hset hid
        have hset₂ : pyStrip row.set_label = "" := hset
        obtain ⟨v, hv⟩ := Option.isSome_iff_exists.mp hid
        have hv₂ : pyInt row.id = some v := hv
        rw [readRows_cons, hv₂]
        dsimp only
        rw [if_pos hset₂]
        rfl
      · intro hel hset hid
        have hel₂ : pyStrip row.element_label = "" := hel
        have hset₂ : pyStrip row.set_label ≠ "" := hset
        obtain ⟨v, hv⟩ := Option.isSome_iff_exists.mp hid
        have hv₂ : pyInt row.id = some v := hv
        rw [readRows_cons, hv₂]
        dsimp only
        rw [if_neg hset₂, if_pos hel₂]
        rfl
    | succ k =>
      obtain ⟨hid, hset, hel⟩ := hgood 0 (Nat.succ_pos k)
      obtain ⟨v, hv⟩ := Option.isSome_iff_exists.mp hid
      have hv₂ : pyInt row.id = some v := hv
      have hset₂ : pyStrip row.set_label ≠ "" := hset
      have hel₂ : pyStrip row.element_label ≠ "" := hel
      have hrest := ih (n + 1) k (Nat.lt_of_succ_lt_succ h)
        (fun j hj => hgood (j + 1) (Nat.succ_lt_succ hj))
      refine ⟨?_, ?_, ?_⟩
      · intro hnone
        rw [readRows_cons, hv₂]
        dsimp only
        rw [if_neg hset₂, if_neg hel₂, hrest.1 hnone]
        dsimp only
        rw [show n + 1 + k = n + (k + 1) from by omega]
        rfl
      · intro hsetk hidk
        rw [readRows_cons, hv₂]
        dsimp only
        rw [if_neg hset₂, if_neg hel₂, hrest.2.1 hsetk hidk]
        dsimp only
        rw [show n + 1 + k = n + (k + 1) from by omega]
      · intro helk hsetk hidk
        rw [readRows_cons, hv₂]
        dsimp only
        rw [if_neg hset₂, if_neg hel₂, hrest.2.2 helk hsetk hidk]
        dsimp only
        rw [show n + 1 + k = n + (k + 1) from by omega]

/-- **C7.** The reader fails with the not-found error on a missing file and
the empty-input error on a file with zero data rows; on a file whose rows all
parse it returns exactly one record per data row, in file order; and at the
first offending row it fails with the format error naming that row's file
line (row k is line k+2) and, for an unparseable id, the raw id text. -/
theorem claim7_reader_error_contract :
    (read_csv none = .error .notFoundError) ∧
    (read_csv (some []) = .error .emptyInputError) ∧
    (∀ rows, rows ≠ [] → (∀ row ∈ rows, rowGood row) →
      read_csv (some rows) = .ok (rows.map convRow)) ∧
    (∀ rows k (h : k < rows.length),
      (∀ j (hj : j < k), rowGood (rows.get ⟨j, Nat.lt_trans hj h⟩)) →
      ((pyInt (rows.get ⟨k, h⟩).id = none →
          read_csv (some rows) = .error (.invalidIdFormat (k + 2) (rows.get ⟨k, h⟩).id)) ∧
       (pyStrip (rows.get ⟨k, h⟩).set_label = "" → (pyInt (rows.get ⟨k, h⟩).id).isSome = true →
          read_csv (some rows) = .error (.emptySetLabel (k + 2))) ∧
       (pyStrip (rows.get ⟨k, h⟩).element_label = "" → pyStrip (rows.get ⟨k, h⟩).set_label ≠ "" →
          (pyInt (rows.get ⟨k, h⟩).id).isSome = true →
          read_csv (some rows) = .error (.emptyElementLabel (k + 2))))) := by
  refine ⟨rfl, rfl, ?_, ?_⟩
  · intro rows hne hall
    obtain ⟨r, rest, rfl⟩ := List.exists_cons_of_ne_nil hne
    unfold read_csv
    dsimp only
    rw [readRows_ok_of_good (r :: rest) 2 hall]
    rfl
  · intro rows k h hgood
    have base := readRows_error_at rows 2 k h hgood
    refine ⟨?_, ?_, ?_⟩
    · intro hnone
      unfold read_csv
      dsimp only
      rw [base.1 hnone]
      dsimp only
      rw [Nat.add_comm 2 k]
    · intro hset hid
      unfold read_csv
      dsimp only
      rw [base.2.1 hset hid]
      dsimp only
      rw [Nat.add_comm 2 k]
    · intro hel hset hid
      unfold read_csv
      dsimp only
      rw [base.2.2 hel hset hid]
      dsimp only
      rw [Nat.add_comm 2 k]

/-- Closed instance of C7: an unparseable id fails naming line 2 and the raw
text; an all-whitespace `set_label` on the second row fails naming line 3; a
well-formed file parses to one record per row. -/
theorem claim7_witness :
    read_csv (some [{ id := "abc", set_label := "A", element_label := "x" }])
      = .error (.invalidIdFormat 2 "abc") ∧
    read_csv (some [{ id := "0", set_label := "A", element_label := "x" },
                    { id := "1", set_label := " ", element_label := "y" }])
      = .error (.emptySetLabel 3) ∧
    read_csv (some [{ id := "0", set_label := "A", element_label := "x" }])
      = .ok [{ id := 0, set_label := "A", element_label := "x" }] := by
  refine ⟨?_, ?_, ?_⟩
  · exact (claim7_reader_error_contract.2.2.2
      [{ id := "abc", set_label := "A", element_label := "x" }] 0 (by decide)
      (fun j hj => absurd hj (Nat.not_lt_zero j))).1 rfl
  · exact (claim7_reader_error_contract.2.2.2
      [{ id := "0", set_label := "A", element_label := "x" },
       { id := "1", set_label := " ", element_label := "y" }] 1 (by decide)
      (fun j hj => by
        cases j with
        | zero =>
          exact show rowGood { id := "0", set_label := "A", element_label := "x" } from by decide
        | succ j => exact absurd hj (by omega))).2.1 rfl rfl
  · exact claim7_reader_error_contract.2.2.1
      [{ id := "0", set_label := "A", element_label := "x" }] (by decide)
      (fun row hrow => by
        rcases List.mem_singleton.mp hrow with rfl
        decide)

/-! ## Category extractor characterization (C4) -/

/-- The entries `collect` appends when the names in `avoid` have already been
seen: one `(set name, first-appearance index, chosen color)` triple per new
category, in order of first appearance. -/
def faNew (avoid : List String) : List ElementRecord → Nat → List (String × Nat × String)
  | [], _ => []
  | record :: rest, i =>
    if record.set_label ∈ avoid then faNew avoid rest (i + 1)
    else (record.set_label, i, pyColorOr record.color (get_default_color record.set_label))
      :: faNew (record.set_label :: avoid) rest (i + 1)

theorem faNew_cons (avoid : List String) (record : ElementRecord)
    (rest : List ElementRecord) (i : Nat) :
    faNew avoid (record :: rest) i
      = if record.set_label ∈ avoid then faNew avoid rest (i + 1)
        else (record.set_label, i, pyColorOr record.color (get_default_color record.set_label))
          :: faNew (record.set_label :: avoid) rest (i + 1) := rfl

theorem faNew_congr : ∀ (records : List ElementRecord) (a₁ a₂ : List String),
    (∀ x, x ∈ a₁ ↔ x ∈ a₂) → ∀ i, faNew a₁ records i = faNew a₂ records i := by
  intro records
  induction records with
  | nil =>
    intro a₁ a₂ h i
    rfl
  | cons record rest ih =>
    intro a₁ a₂ h i
    rw [faNew_cons, faNew_cons]
    by_cases hm : record.set_label ∈ a₁
    · rw [if_pos hm, if_pos ((h _).mp hm), ih a₁ a₂ h (i + 1)]
    · rw [if_neg hm, if_neg (fun hm₂ => hm ((h _).mpr hm₂)),
        ih (record.set_label :: a₁) (record.set_label :: a₂)
          (fun x => by rw [List.mem_cons, List.mem_cons, h x]) (i + 1)]

theorem alookup_isSome {β : Type} (key : String) : ∀ (l : List (String × β)),
    (alookup key l).isSome = true ↔ key ∈ l.map Prod.fst := by
  intro l
  induction l with
  | nil => simp [alookup]
  | cons p rest ih =>
    obtain ⟨k, v⟩ := p
    rw [show alookup key ((k, v) :: rest)
        = if k = key then some v else alookup key rest from rfl]
    by_cases hk : k = key
    · subst hk
      simp
    · rw [if_neg hk]
      simp only [List.map_cons, List.mem_cons, ih]
      constructor
      · intro h
        exact Or.inr h
      · rintro (h | h)
        · exact absurd h.symm hk
        · exact h

theorem collect_eq : ∀ (records : List ElementRecord) (i : Nat)
    (seen : List (String × Nat)) (colors : List (String × String)),
    collect records i seen colors
      = (seen ++ (faNew (seen.map Prod.fst) records i).map (fun t => (t.1, t.2.1)),
         colors ++ (faNew (seen.map Prod.fst) records i).map (fun t => (t.1, t.2.2))) := by
  intro records
  induction records with
  | nil =>
    intro i seen colors
    simp [collect, faNew]
  | cons record rest ih =>
    intro i seen colors
    rw [show collect (record :: rest) i seen colors
        = (if (alookup record.set_label seen).isSome = true then
            collect rest (i + 1) seen colors
           else
            collect rest (i + 1) (seen ++ [(record.set_label, i)])
              (colors ++ [(record.set_label,
                pyColorOr record.color (get_default_color record.set_label))])) from rfl]
    rw [faNew_cons]
    by_cases hm : record.set_label ∈ seen.map Prod.fst
    · rw [if_pos ((alookup_isSome _ _).mpr hm), if_pos hm, ih (i + 1) seen colors]
    · rw [if_neg (fun hs => hm ((alookup_isSome _ _).mp hs)), if_neg hm,
        ih (i + 1) (seen ++ [(record.set_label, i)])
          (colors ++ [(record.set_label,
            pyColorOr record.color (get_default_color record.set_label))])]
      rw [List.map_append]
      rw [faNew_congr rest (seen.map Prod.fst ++ [(record.set_label, i)].map Prod.fst)
        (record.set_label :: seen.map Prod.fst)
        (fun x => by
          simp only [List.map_cons, List.map_nil, List.mem_append, List.mem_cons,
            List.mem_singleton, List.not_mem_nil, or_false]
          exact Or.comm) (i + 1)]
      simp [List.append_assoc]

theorem faNew_lb : ∀ (records : List ElementRecord) (avoid : List String) (i : Nat),
    ∀ t ∈ faNew avoid records i, i ≤ t.2.1 := by
  intro records
  induction records with
  | nil =>
    intro avoid i t ht
    simp [faNew] at ht
  | cons record rest ih =>
    intro avoid i t ht
    rw [faNew_cons] at ht
    split at ht
    · exact Nat.le_trans (Nat.le_succ i) (ih avoid (i + 1) t ht)
    · rcases List.mem_cons.mp ht with rfl | hmem
      · exact Nat.le_refl i
      · exact Nat.le_trans (Nat.le_succ i) (ih _ (i + 1) t hmem)

theorem faNew_pairwise_lt : ∀ (records : List ElementRecord) (avoid : List String) (i : Nat),
    List.Pairwise (fun a b => a.2.1 < b.2.1) (faNew avoid records i) := by
  intro records
  induction records with
  | nil =>
    intro avoid i
    exact List.Pairwise.nil
  | cons record rest ih =>
    intro avoid i
    rw [faNew_cons]
    split
    · exact ih avoid (i + 1)
    · refine List.Pairwise.cons ?_ (ih _ (i + 1))
      intro b hb
      exact Nat.lt_of_succ_le (faNew_lb rest _ (i + 1) b hb)

theorem faNew_avoid : ∀ (records : List ElementRecord) (avoid : List String) (i : Nat),
    ∀ t ∈ faNew avoid records i, t.1 ∉ avoid := by
  intro records
  induction records with
  | nil =>
    intro avoid i t ht
    simp [faNew] at ht
  | cons record rest ih =>
    intro avoid i t ht
    rw [faNew_cons] at ht
    split at ht
    · exact ih avoid (i + 1) t ht
    · rcases List.mem_cons.mp ht with rfl | hmem
      · rename_i hm
        exact hm
      · intro ha
        exact ih _ (i + 1) t hmem (List.mem_cons_of_mem _ ha)

theorem faNew_names_nodup : ∀ (records : List ElementRecord) (avoid : List String) (i : Nat),
    ((faNew avoid records i).map (fun t => t.1)).Nodup := by
  intro records
  induction records with
  | nil =>
    intro avoid i
    exact List.Pairwise.nil
  | cons record rest ih =>
    intro avoid i
    rw [faNew_cons]
    split
    · exact ih avoid (i + 1)
    · rw [List.map_cons]
      refine List.Nodup.cons ?_ (ih _ (i + 1))
      intro hmem
      rcases List.mem_map.mp hmem with ⟨t, ht, he⟩
      exact faNew_avoid rest _ (i + 1) t ht (he ▸ List.mem_cons_self _ _)

/-- First appearances of labels, skipping those in `avoid`. -/
def firstAppearFrom (avoid : List String) : List String → List String
  | [] => []
  | x :: xs =>
    if x ∈ avoid then firstAppearFrom avoid xs else x :: firstAppearFrom (x :: avoid) xs

theorem faNew_names : ∀ (records : List ElementRecord) (avoid : List String) (i : Nat),
    (faNew avoid records i).map (fun t => t.1)
      = firstAppearFrom avoid (records.map (·.set_label)) := by
  intro records
  induction records with
  | nil =>
    intro avoid i
    rfl
  | cons record rest ih =>
    intro avoid i
    rw [faNew_cons, List.map_cons]
    rw [show firstAppearFrom avoid (record.set_label :: rest.map (·.set_label))
        = if record.set_label ∈ avoid then firstAppearFrom avoid (rest.map (·.set_label))
          else record.set_label
            :: firstAppearFrom (record.set_label :: avoid) (rest.map (·.set_label)) from rfl]
    by_cases hm : record.set_label ∈ avoid
    · rw [if_pos hm, if_pos hm, ih avoid (i + 1)]
    · rw [if_neg hm, if_neg hm, List.map_cons, ih (record.set_label :: avoid) (i + 1)]

theorem firstAppearFrom_eq : ∀ (l : List String) (avoid : List String),
    firstAppearFrom avoid l = (firstAppear l).filter (fun y => y ∉ avoid) := by
  intro l
  induction l with
  | nil =>
    intro avoid
    rfl
  | cons x xs ih =>
    intro avoid
    rw [show firstAppearFrom avoid (x :: xs)
        = if x ∈ avoid then firstAppearFrom avoid xs
          else x :: firstAppearFrom (x :: avoid) xs from rfl]
    rw [show firstAppear (x :: xs) = x :: (firstAppear xs).filter (fun y => y ≠ x) from rfl]
    rw [List.filter_cons]
    by_cases hm : x ∈ avoid
    · rw [if_pos hm, ih avoid, if_neg (by simp [hm]), List.filter_filter]
      apply List.filter_congr
      intro a _
      by_cases hax : a = x
      · subst hax
        simp [hm]
      · simp [hax]
    · rw [if_neg hm, if_pos (by simp [hm]), ih (x :: avoid), List.filter_filter]
      congr 1
      apply List.filter_congr
      intro a _
      by_cases h1 : a = x
      · subst h1
        simp
      · by_cases h2 : a ∈ avoid <;> simp [h1, h2]

theorem firstAppearFrom_nil (l : List String) : firstAppearFrom [] l = firstAppear l := by
  rw [firstAppearFrom_eq]
  exact (List.filter_congr (fun a _ => by simp)).trans (List.filter_true _)

theorem faNew_find : ∀ (records : List ElementRecord) (avoid : List String) (i : Nat),
    ∀ t ∈ faNew avoid records i, ∃ r,
      records.find? (fun rec => rec.set_label = t.1) = some r ∧
      t.2.2 = pyColorOr r.color (get_default_color t.1) := by
  intro records
  induction records with
  | nil =>
    intro avoid i t ht
    simp [faNew] at ht
  | cons record rest ih =>
    intro avoid i t ht
    rw [faNew_cons] at ht
    split at ht
    · rename_i hm
      have havoid := faNew_avoid rest avoid (i + 1) t ht
      have hne : record.set_label ≠ t.1 := fun he => havoid (he ▸ hm)
      obtain ⟨r, hr, hc⟩ := ih avoid (i + 1) t ht
      refine ⟨r, ?_, hc⟩
      rw [List.find?_cons_of_neg _ (by simp [hne])]
      exact hr
    · rcases List.mem_cons.mp ht with rfl | hmem
      · exact ⟨record, List.find?_cons_of_pos _ (by simp), rfl⟩
      · have havoid := faNew_avoid rest (record.set_label :: avoid) (i + 1) t hmem
        have hne : record.set_label ≠ t.1 := fun he => havoid (he ▸ List.mem_cons_self _ _)
        obtain ⟨r, hr, hc⟩ := ih (record.set_label :: avoid) (i + 1) t hmem
        refine ⟨r, ?_, hc⟩
        rw [List.find?_cons_of_neg _ (by simp [hne])]
        exact hr

theorem alookup_map_snd : ∀ (l : List (String × Nat × String)) (t : String × Nat × String),
    (l.map (fun t => t.1)).Nodup → t ∈ l →
    alookup t.1 (l.map (fun t => (t.1, t.2.2))) = some t.2.2 := by
  intro l
  induction l with
  | nil =>
    intro t _ ht
    cases ht
  | cons a rest ih =>
    intro t hnd ht
    rw [List.map_cons] at hnd
    have hnd₂ := List.nodup_cons.mp hnd
    rw [List.map_cons]
    rw [show alookup t.1 ((a.1, a.2.2) :: rest.map (fun t => (t.1, t.2.2)))
        = if a.1 = t.1 then some a.2.2
          else alookup t.1 (rest.map (fun t => (t.1, t.2.2))) from rfl]
    rcases List.mem_cons.mp ht with rfl | hmem
    · rw [if_pos rfl]
    · have hne : a.1 ≠ t.1 := by
        intro he
        exact hnd₂.1 (he ▸ List.mem_map.mpr ⟨t, hmem, rfl⟩)
      rw [if_neg hne]
      exact ih t hnd₂.2 hmem

/-- Full characterization of `extract_sets`: the sort by first-appearance index
is the identity (indices are already increasing), so the result enumerates the
first appearances in order, with the recorded colors. -/
theorem extract_sets_char (records : List ElementRecord) :
    extract_sets records
      = (faNew [] records 0).enum.map
          (fun p => { id := p.1, name := p.2.1, color := p.2.2.2 }) := by
  unfold extract_sets
  rw [collect_eq records 0 [] []]
  simp only [List.map_nil, List.nil_append]
  have hpw : List.Pairwise (fun a b : String × Nat => a.2 < b.2)
      ((faNew [] records 0).map (fun t => (t.1, t.2.1))) :=
    List.Pairwise.map _ (fun a b hab => hab) (faNew_pairwise_lt records [] 0)
  have hsorted : List.Sorted (fun a b : String × Nat => a.2 ≤ b.2)
      ((faNew [] records 0).map (fun t => (t.1, t.2.1))) :=
    hpw.imp (fun hab => Nat.le_of_lt hab)
  rw [List.Sorted.insertionSort_eq hsorted]
  apply List.ext_get
  · simp
  · intro n h₁ h₂
    simp only [List.get_eq_getElem, List.getElem_map, List.getElem_enum]
    have hbound : n < (faNew [] records 0).length := by simpa using h₂
    have hmem : (faNew [] records 0)[n] ∈ faNew [] records 0 :=
      List.getElem_mem hbound
    rw [alookup_map_snd (faNew [] records 0) _ (faNew_names_nodup records [] 0)
      hmem]
    rfl

/-- **C4.** `extract_sets` returns one set per distinct `set_label`, in order
of first appearance (not alphabetical), with ids `0, 1, 2, ...` assigned in
that order; each set's color is the first record of the category's own color
when it has one, otherwise the static table entry via `get_default_color`
(falling back to the generic color for unknown names); and the `[A, B, A, C]`
example yields `[A:0, B:1, C:2]`. -/
theorem claim4_first_appearance_categories (records : List ElementRecord)
    (hcolor : ∀ r ∈ records, r.color ≠ some "") :
    ((extract_sets records).map (fun s => s.name)
        = firstAppear (records.map (·.set_label))) ∧
    ((extract_sets records).map (fun s => s.id)
        = List.range (extract_sets records).length) ∧
    (∀ s ∈ extract_sets records, ∃ r,
        records.find? (fun rec => rec.set_label = s.name) = some r ∧ r ∈ records ∧
        s.color = (match r.color with
                   | some c => c
                   | none => get_default_color s.name)) ∧
    ((extract_sets
        [{ id := 0, set_label := "A", element_label := "w" },
         { id := 1, set_label := "B", element_label := "x" },
         { id := 2, set_label := "A", element_label := "y" },
         { id := 3, set_label := "C", element_label := "z" }]).map (fun s => (s.name, s.id))
      = [("A", 0), ("B", 1), ("C", 2)]) := by
  have hchar := extract_sets_char records
  refine ⟨?_, ?_, ?_, by decide⟩
  · rw [hchar, List.map_map]
    have hcomp : ((fun s : SetRecord => s.name)
        ∘ (fun p : Nat × (String × Nat × String) =>
            ({ id := p.1, name := p.2.1, color := p.2.2.2 } : SetRecord)))
        = ((fun t : String × Nat × String => t.1) ∘ Prod.snd) := rfl
    rw [hcomp, ← List.map_map, List.enum_map_snd, faNew_names records [] 0,
      firstAppearFrom_nil]
  · rw [hchar, List.map_map]
    have hcomp : ((fun s : SetRecord => s.id)
        ∘ (fun p : Nat × (String × Nat × String) =>
            ({ id := p.1, name := p.2.1, color := p.2.2.2 } : SetRecord)))
        = (Prod.fst : Nat × (String × Nat × String) → Nat) := rfl
    rw [hcomp, List.enum_map_fst]
    simp
  · intro s hs
    rw [hchar] at hs
    rcases List.mem_map.mp hs with ⟨p, hp, rfl⟩
    have hsnd : p.2 ∈ faNew [] records 0 := by
      have h₂ : p.2 ∈ (faNew [] records 0).enum.map Prod.snd :=
        List.mem_map.mpr ⟨p, hp, rfl⟩
      rw [List.enum_map_snd] at h₂
      exact h₂
    obtain ⟨r, hr, hc⟩ := faNew_find records [] 0 p.2 hsnd
    refine ⟨r, hr, List.mem_of_find?_eq_some hr, ?_⟩
    show p.2.2.2 = _
    rw [hc]
    cases hcr : r.color with
    | none => rfl
    | some c =>
      have hne : c ≠ "" := by
        intro he
        exact hcolor r (List.mem_of_find?_eq_some hr) (by rw [hcr, he])
      show pyColorOr (some c) _ = c
      unfold pyColorOr
      dsimp only
      rw [if_neg hne]

/-- Closed instance of C4 on records with an explicit color on the first
record of one category and none on another. -/
theorem claim4_witness :
    (extract_sets
        [{ id := 0, set_label := "B", element_label := "w", color := some "#112233" },
         { id := 1, set_label := "A", element_label := "x" },
         { id := 2, set_label := "B", element_label := "y" }]).map (fun s => s.name)
      = firstAppear (([{ id := 0, set_label := "B", element_label := "w", color := some "#112233" },
         { id := 1, set_label := "A", element_label := "x" },
         { id := 2, set_label := "B", element_label := "y" }] : List ElementRecord).map (·.set_label)) := by
  exact (claim4_first_appearance_categories
    [{ id := 0, set_label := "B", element_label := "w", color := some "#112233" },
     { id := 1, set_label := "A", element_label := "x" },
     { id := 2, set_label := "B", element_label := "y" }] (by decide)).1

/-! ## Items serialization (C9) and whitespace colors (C10) -/

/-- The serialized item built from one record. -/
def itemOf (record : ElementRecord) : LabelItem :=
  { elementId := record.id,
    name := record.element_label,
    category := record.set_label,
    color := pyColorOr record.color (get_default_color record.set_label),
    description := replaceUnderscores record.element_label,
    enabled := true }

theorem foldl_append_map {α β : Type} (f : α → β) :
    ∀ (l : List α) (acc : List β),
    l.foldl (fun items x => items ++ [f x]) acc = acc ++ l.map f := by
  intro l
  induction l with
  | nil =>
    intro acc
    simp
  | cons x xs ih =>
    intro acc
    rw [List.foldl_cons, ih, List.map_cons]
    simp [List.append_assoc]

theorem build_label_items_eq_map (records : List ElementRecord) (sets : List SetRecord) :
    build_label_items_json records sets = records.map itemOf := by
  show records.foldl (fun items record => items ++ [itemOf record]) [] = records.map itemOf
  rw [foldl_append_map itemOf records []]
  rfl

/-- **C9.** The serialized items array has exactly one object per record, in
record order: `elementId` is the record id, `name` the element label,
`category` the set label, `color` the record's color or the same
category-default fallback the extractor uses, `description` the element label
with underscores replaced by spaces, and `enabled` true. -/
theorem claim9_items_json_fields (records : List ElementRecord) (sets : List SetRecord)
    (hcolor : ∀ r ∈ records, r.color ≠ some "") :
    (build_label_items_json records sets).length = records.length ∧
    (∀ i (h₁ : i < (build_label_items_json records sets).length)
        (h₂ : i < records.length),
      (build_label_items_json records sets).get ⟨i, h₁⟩
        = { elementId := (records.get ⟨i, h₂⟩).id,
            name := (records.get ⟨i, h₂⟩).element_label,
            category := (records.get ⟨i, h₂⟩).set_label,
            color := (match (records.get ⟨i, h₂⟩).color with
                      | some c => c
                      | none => get_default_color (records.get ⟨i, h₂⟩).set_label),
            description := replaceUnderscores (records.get ⟨i, h₂⟩).element_label,
            enabled := true }) := by
  rw [build_label_items_eq_map]
  constructor
  · simp
  · intro i h₁ h₂
    simp only [List.get_eq_getElem, List.getElem_map]
    have hrc := hcolor records[i] (List.getElem_mem h₂)
    unfold itemOf
    cases hcr : records[i].color with
    | none =>
      rw [show pyColorOr none (get_default_color records[i].set_label)
          = get_default_color records[i].set_label from rfl]
    | some c =>
      have hne : c ≠ "" := by
        intro he
        exact hrc (by rw [hcr, he])
      show _ = ({ elementId := records[i].id,
                  name := records[i].element_label,
                  category := records[i].set_label,
                  color := c,
                  description := replaceUnderscores records[i].element_label,
                  enabled := true } : LabelItem)
      unfold pyColorOr
      dsimp only
      rw [if_neg hne]

/-- Closed instance of C9 at a two-record input, one colored, one not. -/
theorem claim9_witness :
    (build_label_items_json
        [{ id := 0, set_label := "Twizzle", element_label := "a_b", color := some "#112233" },
         { id := 1, set_label := "Twizzle", element_label := "c" }] []).length = 2 ∧
    (build_label_items_json
        [{ id := 0, set_label := "Twizzle", element_label := "a_b", color := some "#112233" },
         { id := 1, set_label := "Twizzle", element_label := "c" }] []).get ⟨0, by decide⟩
      = { elementId := 0, name := "a_b", category := "Twizzle", color := "#112233",
          description := replaceUnderscores "a_b", enabled := true } := by
  have h := claim9_items_json_fields
    [{ id := 0, set_label := "Twizzle", element_label := "a_b", color := some "#112233" },
     { id := 1, set_label := "Twizzle", element_label := "c" }] [] (by decide)
  exact ⟨h.1, h.2 0 (by decide) (by decide)⟩

/-- **C10.** A color field that is empty or whitespace-only is stored as
absent: the parsed record equals the one parsed with no color column at all
(so everything downstream is identical); an absent color never yields a
color-format problem; and both the derived set color (when the record opens
its category) and the serialized item color fall back to the category
default. -/
theorem claim10_whitespace_color_is_absent (row : RawRow) (s : String)
    (hs : pyStrip s = "") :
    (pyOptStrip (some s) = none) ∧
    (∀ l₁ l₂ n, readRows n (l₁ ++ { row with color := some s } :: l₂)
        = readRows n (l₁ ++ { row with color := none } :: l₂)) ∧
    (∀ rec : ElementRecord, rec.color = none → colorErrorOf rec = none) ∧
    (∀ rec : ElementRecord, rec.color = none →
      ∀ rest, (extract_sets (rec :: rest)).head?
        = some { id := 0, name := rec.set_label,
                 color := get_default_color rec.set_label }) ∧
    (∀ rec : ElementRecord, rec.color = none → ∀ sets,
      (build_label_items_json [rec] sets).map (fun item => item.color)
        = [get_default_color rec.set_label]) := by
  have hnone : pyOptStrip (some s) = none := by
    unfold pyOptStrip
    dsimp only
    rw [if_pos hs]
  refine ⟨hnone, ?_, ?_, ?_, ?_⟩
  · intro l₁
    induction l₁ with
    | nil =>
      intro l₂ n
      rw [List.nil_append, List.nil_append, readRows_cons, readRows_cons]
      dsimp only
      rw [hnone, show pyOptStrip none = none from rfl]
    | cons r₀ rest ih =>
      intro l₂ n
      rw [List.cons_append, List.cons_append, readRows_cons, readRows_cons,
        ih l₂ (n + 1)]
  · intro rec hrec
    unfold colorErrorOf
    rw [hrec]
  · intro rec hrec rest
    rw [extract_sets_char, faNew_cons, if_neg (List.not_mem_nil _), hrec,
      show pyColorOr none (get_default_color rec.set_label)
        = get_default_color rec.set_label from rfl]
    rfl
  · intro rec hrec sets
    rw [build_label_items_eq_map, List.map_cons, List.map_nil, List.map_cons, List.map_nil]
    unfold itemOf
    dsimp only
    rw [hrec, show pyColorOr none (get_default_color rec.set_label)
      = get_default_color rec.set_label from rfl]

/-- Closed instance of C10: a whitespace-only color parses exactly like an
absent color column, and the derived set color falls back to the table. -/
theorem claim10_witness :
    readRows 2 [{ id := "0", set_label := "Twizzle", element_label := "x",
                  color := some "   " }]
      = readRows 2 [{ id := "0", set_label := "Twizzle", element_label := "x",
                      color := none }] ∧
    (extract_sets [{ id := 0, set_label := "Twizzle", element_label := "x" }]).head?
      = some { id := 0, name := "Twizzle", color := get_default_color "Twizzle" } := by
  have h := claim10_whitespace_color_is_absent
    { id := "0", set_label := "Twizzle", element_label := "x" } "   " (by decide)
  exact ⟨h.2.1 [] [] 2,
    h.2.2.2.1 { id := 0, set_label := "Twizzle", element_label := "x" } rfl []⟩

end CsvToMapping







